import Mathlib

/-
Verification of the schema-driven dummy-data generator
(kafka_performance_test/data_generator/dummy_data_generator.py).

The generator is embedded shallowly:
  * machine integers are `Int`/`Nat`; Python floats are idealised as `ℚ`
    (`random.uniform` returns a rational in the requested interval and
    `round` is banker's rounding on rationals);
  * the Faker instance and the global `random` state are modelled by an
    `Oracle`: a family of functions indexed by a call counter that advances
    once per visited field, so successive fields may observe different
    random values; `OracleOk` states the range guarantees documented for
    `random.randint`, `random.uniform` and `Faker.lexify`;
  * a Python `dict` record is an insertion-ordered association list with
    overwrite-on-existing-key semantics (`insertVal` / `lookupVal`);
  * a `KeyError` raised by `field['type']['type']` or `schema['fields']`
    is an `Except.error`; the JSONL file contents are the returned list of
    records, one line per record.
-/

/-- A value placed in a generated record: Python int, str or float
(floats idealised as rationals). -/
inductive Value where
  | int (n : ℤ)
  | str (s : String)
  | rat (q : ℚ)
  deriving DecidableEq, Repr

/-- The `type` entry of a field definition: either a primitive JSON string
tag, or a nested JSON object.  For the nested object, `ity` is the value at
its inner `type` key if present (`none` models a missing key, which makes
`field['type']['type']` raise `KeyError`), and `maxLength` is the value at
its `maxLength` key if present. -/
inductive FieldType where
  | prim (tag : String)
  | obj (ity : Option String) (maxLength : Option ℕ)
  deriving DecidableEq, Repr

/-- One schema field definition: keys `name`, `type` and optional `doc`,
as read by `generate_dummy_data`. -/
structure FieldDef where
  name : String
  type : FieldType
  doc : Option String
  deriving DecidableEq, Repr

/-- A schema document; `fields` is `none` when the document lacks the
`fields` key, so that `schema['fields']` raises `KeyError`. -/
structure Schema where
  fields : Option (List FieldDef)
  deriving DecidableEq, Repr

/-- The `KeyError`s the generator can raise: `field['type']['type']` on a
nested object with no inner `type` key, and `schema['fields']` on a schema
with no `fields` key. -/
inductive GenError where
  | keyErrorType
  | keyErrorFields
  deriving DecidableEq, Repr

/-- The ambient randomness: Faker plus the `random` module, indexed by a
call counter so that distinct fields may observe distinct draws. -/
structure Oracle where
  randint : ℕ → ℤ → ℤ → ℤ
  uniform : ℕ → ℚ → ℚ → ℚ
  letterAt : ℕ → ℕ → Char
  email : ℕ → String
  personName : ℕ → String
  address : ℕ → String
  postcode : ℕ → String
  creditCardNumber : ℕ → String
  timestampNtz : ℕ → String
  date : ℕ → String
  word : ℕ → String

/-- Range guarantees of the randomness primitives: `random.randint a b`
lands in `[a, b]` when `a ≤ b`, `random.uniform a b` lands between
`min a b` and `max a b`, and `Faker.lexify` fills with ASCII letters. -/
structure OracleOk (o : Oracle) : Prop where
  randint_mem : ∀ i a b, a ≤ b → a ≤ o.randint i a b ∧ o.randint i a b ≤ b
  uniform_mem : ∀ i a b, min a b ≤ o.uniform i a b ∧ o.uniform i a b ≤ max a b
  letter_alpha : ∀ i j, (o.letterAt i j).isAlpha = true

/-- A concrete oracle used to evaluate the generator on closed inputs:
`randint` returns the lower bound, `uniform` the smaller endpoint. -/
def defaultOracle : Oracle :=
  ⟨fun _ a _ => a, fun _ a b => min a b, fun _ _ => 'a',
   fun _ => "a@b.c", fun _ => "nm", fun _ => "ad", fun _ => "pc",
   fun _ => "0", fun _ => "ts", fun _ => "dt", fun _ => "wd"⟩

/-- Python `str.lower` on the field's `doc`, as a character list. -/
def pyLower (s : String) : List Char := s.data.map Char.toLower

/-- Match a literal character sequence at the head of the input, returning
the rest on success (building block of `re.match`'s anchored semantics). -/
def parseLit : List Char → List Char → Option (List Char)
  | [], s => some s
  | _ :: _, [] => none
  | c :: cs, d :: ds => if d = c then parseLit cs ds else none

/-- Greedy accumulation of further decimal digits (the rest of `\d+`). -/
def digitsAux : ℕ → List Char → ℕ × List Char
  | acc, [] => (acc, [])
  | acc, c :: cs => if c.isDigit then digitsAux (acc * 10 + (c.toNat - 48)) cs else (acc, c :: cs)

/-- Match one-or-more decimal digits (`\d+`), returning their value. -/
def parseDigits : List Char → Option (ℕ × List Char)
  | [] => none
  | c :: cs => if c.isDigit then some (digitsAux (c.toNat - 48) cs) else none

/-- The source's `parse_number_format`: `re.match` of
`number\((\d+),(\d+)\)` against the lowercased doc.  `re.match` anchors at
the start only, so trailing characters after `)` are ignored. -/
def parse_number_format (doc : List Char) : Option (ℕ × ℕ) :=
  match parseLit ("number(".data) doc with
  | none => none
  | some r1 =>
    match parseDigits r1 with
    | none => none
    | some (precision, r2) =>
      match parseLit [','] r2 with
      | none => none
      | some r3 =>
        match parseDigits r3 with
        | none => none
        | some (scale, r4) =>
          match parseLit [')'] r4 with
          | none => none
          | some _ => some (precision, scale)

/-- The source's `doc.startswith('number(')` test. -/
def startsNumber (doc : List Char) : Bool :=
  (parseLit ("number(".data) doc).isSome

/-- Python `10 ** e` on an integer exponent: an integer power for `e ≥ 0`
and the float (here: rational) `1 / 10 ** (-e)` for `e < 0`. -/
def pyPow10 (e : ℤ) : ℚ :=
  if 0 ≤ e then (10 : ℚ) ^ e.toNat else 1 / (10 : ℚ) ^ (-e).toNat

/-- Python `round` to an integer: banker's rounding (ties go to the even
neighbour), idealised on rationals. -/
def pyRoundInt (q : ℚ) : ℤ :=
  if Int.fract q = 1 / 2 then (if ⌊q⌋ % 2 = 0 then ⌊q⌋ else ⌊q⌋ + 1) else round q

/-- Python `round(q, n)` for `n ≥ 0` digits, idealised on rationals. -/
def pyRound (q : ℚ) (n : ℕ) : ℚ :=
  (pyRoundInt (q * 10 ^ n) : ℚ) / 10 ^ n

/-- Faker's `lexify`: replace each `?` of the template with a drawn letter
(the `j`-th placeholder uses draw `j`); other characters are kept. -/
def lexifyAux (letter : ℕ → Char) : ℕ → List Char → List Char
  | _, [] => []
  | j, c :: cs => (if c = '?' then letter j else c) :: lexifyAux letter (j + 1) cs

/-- The call `fake.lexify(text)` under oracle draw family `letter`. -/
def lexify (letter : ℕ → Char) (text : List Char) : String :=
  String.mk (lexifyAux letter 0 text)

/-- The source's `handle_complex_type`: on a nested-object `type`, read its
inner `type` key (raising `KeyError` when absent), and produce
`lexify('?' * maxLength)` exactly when the inner type is `"string"` and
`maxLength` is present; in every other case return `None`. -/
def handle_complex_type (o : Oracle) (i : ℕ) (field : FieldDef) : Except GenError (Option Value) :=
  match field.type with
  | .prim _ => .ok none
  | .obj none _ => .error .keyErrorType
  | .obj (some t) ml =>
    if t = "string" then
      match ml with
      | some n => .ok (some (.str (lexify (o.letterAt i) (List.replicate n '?'))))
      | none => .ok none
    else .ok none

/-- One field's value, as computed by the per-field body of
`generate_dummy_data`: the complex-type check first, then the
`int` / `string` / `double` dispatch on the primitive tag with the
lowercased `doc` hint; `ok none` is a silently omitted field. -/
def genFieldValue (o : Oracle) (i : ℕ) (field : FieldDef) : Except GenError (Option Value) :=
  match handle_complex_type o i field with
  | .error e => .error e
  | .ok (some v) => .ok (some v)
  | .ok none =>
    match field.type with
    | .obj _ _ => .ok none
    | .prim tag =>
      if tag = "int" then .ok (some (.int (o.randint i 0 999999)))
      else if tag = "string" then
        let doc := pyLower (field.doc.getD "")
        if doc = "email".data then .ok (some (.str (o.email i)))
        else if doc = "name".data then .ok (some (.str (o.personName i)))
        else if doc = "address".data then .ok (some (.str (o.address i)))
        else if doc = "postcode".data then .ok (some (.str (o.postcode i)))
        else if doc = "credit_card_number".data then .ok (some (.str (o.creditCardNumber i)))
        else if doc = "timestamp_ntz".data then .ok (some (.str (o.timestampNtz i)))
        else if doc = "date".data then .ok (some (.str (o.date i)))
        else .ok (some (.str (o.word i)))
      else if tag = "double" then
        let doc := pyLower (field.doc.getD "")
        if startsNumber doc then
          match parse_number_format doc with
          | some (precision, scale) =>
            .ok (some (.rat (pyRound
              (o.uniform i 0 (pyPow10 ((precision : ℤ) - (scale : ℤ)) - 1)) scale)))
          | none => .ok none
        else .ok (some (.rat (pyRound (o.uniform i 0 99999999) 2)))
      else .ok none

/-- Python dict assignment `record[k] = v`: overwrite in place when the key
exists, append otherwise. -/
def insertVal : List (String × Value) → String → Value → List (String × Value)
  | [], k, v => [(k, v)]
  | (k', v') :: r, k, v => if k' = k then (k', v) :: r else (k', v') :: insertVal r k v

/-- Python dict read `record.get(k)`. -/
def lookupVal : List (String × Value) → String → Option Value
  | [], _ => none
  | (k', v') :: r, k => if k' = k then some v' else lookupVal r k

/-- The inner `for field in schema['fields']` loop: visit the fields in
order, inserting each produced value under the field's name. -/
def genFields (o : Oracle) : ℕ → List FieldDef → List (String × Value) → Except GenError (List (String × Value))
  | _, [], record => .ok record
  | i, field :: fs, record =>
    match genFieldValue o i field with
    | .error e => .error e
    | .ok none => genFields o (i + 1) fs record
    | .ok (some v) => genFields o (i + 1) fs (insertVal record field.name v)

/-- The outer `for _ in range(num_records)` loop.  `schema['fields']` is
read inside the loop body, so a missing `fields` key only raises once the
body runs at least once. -/
def genLoop (o : Oracle) (schema : Schema) : ℕ → ℕ → Except GenError (List (List (String × Value)))
  | _, 0 => .ok []
  | i, Nat.succ n =>
    match schema.fields with
    | none => .error .keyErrorFields
    | some fs =>
      match genFields o i fs [] with
      | .error e => .error e
      | .ok record =>
        match genLoop o schema (i + fs.length) n with
        | .error e => .error e
        | .ok rest => .ok (record :: rest)

/-- The source's `generate_dummy_data`, returning the records written to
the output file, one JSON line per record.  `range(num_records)` iterates
`max(num_records, 0)` times, hence `Int.toNat`. -/
def generate_dummy_data (o : Oracle) (schema : Schema) (num_records : ℤ) : Except GenError (List (List (String × Value))) :=
  genLoop o schema 0 num_records.toNat

/-- A field whose `type` entry cannot raise `KeyError` in
`handle_complex_type`: anything but a nested object lacking the inner
`type` key. -/
def complexOkB (field : FieldDef) : Bool :=
  match field.type with
  | .obj none _ => false
  | _ => true

/-- Banker's rounding never goes below the floor. -/
theorem pyRoundInt_ge_floor (q : ℚ) : ⌊q⌋ ≤ pyRoundInt q := by
  unfold pyRoundInt
  split
  · split
    · exact le_refl _
    · exact le_of_lt (lt_add_one _)
  · rw [round_eq]
    exact Int.floor_mono (by linarith)

/-- Banker's rounding never goes above the ceiling. -/
theorem pyRoundInt_le_ceil (q : ℚ) : pyRoundInt q ≤ ⌈q⌉ := by
  unfold pyRoundInt
  split
  · rename_i htie
    have h0 : Int.fract q = q - ⌊q⌋ := rfl
    have hq : q = (⌊q⌋ : ℚ) + 1 / 2 := by rw [h0] at htie; linarith
    have hlt : (⌊q⌋ : ℚ) < q := by linarith
    have hceil : ⌊q⌋ + 1 ≤ ⌈q⌉ := by
      have h2 : (⌊q⌋ : ℚ) < (⌈q⌉ : ℚ) := lt_of_lt_of_le hlt (Int.le_ceil q)
      exact_mod_cast Int.add_one_le_iff.mpr (by exact_mod_cast h2)
    split
    · omega
    · exact hceil
  · rw [round_eq]
    have h1 : q + 1 / 2 ≤ (⌈q⌉ : ℚ) + 1 / 2 := by linarith [Int.le_ceil q]
    calc ⌊q + 1 / 2⌋ ≤ ⌊(⌈q⌉ : ℚ) + 1 / 2⌋ := Int.floor_mono h1
    _ = ⌈q⌉ + ⌊(1 : ℚ) / 2⌋ := by rw [Int.floor_int_add]
    _ = ⌈q⌉ := by norm_num

/-- Banker's rounding fixes integers. -/
theorem pyRoundInt_intCast (n : ℤ) : pyRoundInt ((n : ℚ)) = n := by
  unfold pyRoundInt
  rw [Int.fract_intCast]
  rw [if_neg (by norm_num)]
  exact round_intCast n

/-- Rounding a nonnegative rational to `n` digits stays nonnegative. -/
theorem pyRound_nonneg {q : ℚ} (n : ℕ) (h : 0 ≤ q) : 0 ≤ pyRound q n := by
  unfold pyRound
  apply div_nonneg _ (by positivity)
  have h0 : (0 : ℤ) ≤ ⌊q * 10 ^ n⌋ := Int.floor_nonneg.mpr (by positivity)
  exact_mod_cast le_trans h0 (pyRoundInt_ge_floor _)

/-- Rounding to `n` digits cannot exceed an integer bound on the input. -/
theorem pyRound_le_intCast {q : ℚ} {K : ℤ} (n : ℕ) (h : q ≤ (K : ℚ)) : pyRound q n ≤ (K : ℚ) := by
  unfold pyRound
  rw [div_le_iff₀ (by positivity)]
  have h1 : q * 10 ^ n ≤ ((K * 10 ^ n : ℤ) : ℚ) := by
    push_cast
    exact mul_le_mul_of_nonneg_right h (by positivity)
  have h2 : pyRoundInt (q * 10 ^ n) ≤ K * 10 ^ n :=
    le_trans (pyRoundInt_le_ceil _) (Int.ceil_le.mpr h1)
  calc (pyRoundInt (q * 10 ^ n) : ℚ) ≤ ((K * 10 ^ n : ℤ) : ℚ) := by exact_mod_cast h2
  _ = (K : ℚ) * 10 ^ n := by push_cast; ring

/-- A successful `parse_number_format` implies the `startswith('number(')`
guard holds. -/
theorem startsNumber_of_parse {doc : List Char} {ps : ℕ × ℕ}
    (h : parse_number_format doc = some ps) : startsNumber doc = true := by
  unfold parse_number_format at h
  unfold startsNumber
  cases hl : parseLit ("number(".data) doc with
  | none => rw [hl] at h; exact absurd h (by simp)
  | some r => simp

/-- On a primitive tag, the complex-type check produces nothing. -/
theorem handle_complex_type_prim (o : Oracle) (i : ℕ) (field : FieldDef) (tag : String)
    (ht : field.type = .prim tag) : handle_complex_type o i field = .ok none := by
  simp [handle_complex_type, ht]

/-- An `int`-tagged field draws `random.randint(0, 999999)`. -/
theorem genFieldValue_int (o : Oracle) (i : ℕ) (field : FieldDef)
    (ht : field.type = .prim "int") :
    genFieldValue o i field = .ok (some (.int (o.randint i 0 999999))) := by
  simp [genFieldValue, handle_complex_type, ht]

/-- A `double`-tagged field whose lowercased doc parses as
`number(precision,scale)` draws `uniform(0, 10**(precision-scale)-1)` and
rounds to `scale` digits. -/
theorem genFieldValue_double_parsed (o : Oracle) (i : ℕ) (field : FieldDef)
    (precision scale : ℕ)
    (ht : field.type = .prim "double")
    (hdoc : parse_number_format (pyLower (field.doc.getD "")) = some (precision, scale)) :
    genFieldValue o i field = .ok (some (.rat (pyRound
      (o.uniform i 0 (pyPow10 ((precision : ℤ) - (scale : ℤ)) - 1)) scale))) := by
  have hs := startsNumber_of_parse hdoc
  simp [genFieldValue, handle_complex_type, ht, hs, hdoc]

/-- A nested `{type: "string", maxLength: n}` field draws
`lexify('?' * n)`. -/
theorem genFieldValue_nested_string (o : Oracle) (i : ℕ) (field : FieldDef) (n : ℕ)
    (ht : field.type = .obj (some "string") (some n)) :
    genFieldValue o i field =
      .ok (some (.str (lexify (o.letterAt i) (List.replicate n '?')))) := by
  simp [genFieldValue, handle_complex_type, ht]

/-- A nested object that has an inner `type` key but not the
`{type: "string", maxLength: n}` shape produces nothing. -/
theorem genFieldValue_obj_skip (o : Oracle) (i : ℕ) (field : FieldDef)
    (t : String) (ml : Option ℕ)
    (ht : field.type = .obj (some t) ml)
    (hshape : t ≠ "string" ∨ ml = none) :
    genFieldValue o i field = .ok none := by
  rcases hshape with hne | hml
  · simp [genFieldValue, handle_complex_type, ht, hne]
  · subst hml
    by_cases hts : t = "string"
    · simp [genFieldValue, handle_complex_type, ht, hts]
    · simp [genFieldValue, handle_complex_type, ht, hts]

/-- A `double`-tagged field whose doc starts with `number(` but fails the
`number(p,s)` pattern is silently omitted. -/
theorem genFieldValue_double_malformed (o : Oracle) (i : ℕ) (field : FieldDef)
    (ht : field.type = .prim "double")
    (hstart : startsNumber (pyLower (field.doc.getD "")) = true)
    (hparse : parse_number_format (pyLower (field.doc.getD "")) = none) :
    genFieldValue o i field = .ok none := by
  simp [genFieldValue, handle_complex_type, ht, hstart, hparse]

/-- A field that cannot raise `KeyError` always yields some `Except.ok`. -/
theorem genFieldValue_isOk (o : Oracle) (i : ℕ) (field : FieldDef)
    (h : complexOkB field = true) : ∃ v, genFieldValue o i field = .ok v := by
  rcases field with ⟨nm, ft, dc⟩
  cases ft with
  | prim tag =>
    simp only [genFieldValue, handle_complex_type]
    repeat' first
      | exact ⟨_, rfl⟩
      | split
  | obj ity ml =>
    cases ity with
    | none => simp [complexOkB] at h
    | some t =>
      by_cases hts : t = "string"
      · subst hts
        cases ml with
        | some n => exact ⟨_, genFieldValue_nested_string o i _ n rfl⟩
        | none => exact ⟨_, genFieldValue_obj_skip o i _ _ none rfl (Or.inr rfl)⟩
      · exact ⟨_, genFieldValue_obj_skip o i _ t ml rfl (Or.inl hts)⟩

/-- Reading back the key just assigned yields the assigned value. -/
theorem insertVal_lookup_self (r : List (String × Value)) (k : String) (v : Value) :
    lookupVal (insertVal r k v) k = some v := by
  induction r with
  | nil => simp [insertVal, lookupVal]
  | cons p r ih =>
    rcases p with ⟨k', v'⟩
    by_cases h : k' = k
    · subst h
      simp [insertVal, lookupVal]
    · simp [insertVal, lookupVal, h, ih]

/-- Assigning one key leaves every other key unchanged. -/
theorem insertVal_lookup_ne (r : List (String × Value)) (k k' : String) (v : Value)
    (h : k' ≠ k) : lookupVal (insertVal r k' v) k = lookupVal r k := by
  induction r with
  | nil => simp [insertVal, lookupVal, h]
  | cons p r ih =>
    rcases p with ⟨k₀, v₀⟩
    by_cases h0 : k₀ = k'
    · subst h0
      simp [insertVal, lookupVal, h]
    · simp [insertVal, lookupVal, h0, ih]

/-- Every entry after an assignment either carries the assigned key or was
already present. -/
theorem mem_insertVal (r : List (String × Value)) (k : String) (v : Value)
    (p : String × Value) (h : p ∈ insertVal r k v) : p.1 = k ∨ p ∈ r := by
  induction r with
  | nil =>
    simp [insertVal] at h
    subst h
    exact Or.inl rfl
  | cons q r ih =>
    rcases q with ⟨k₀, v₀⟩
    by_cases h0 : k₀ = k
    · subst h0
      simp [insertVal] at h
      rcases h with h | h
      · subst h; exact Or.inl rfl
      · exact Or.inr (List.mem_cons_of_mem _ h)
    · simp [insertVal, h0] at h
      rcases h with h | h
      · subst h; exact Or.inr (List.mem_cons_self _ _)
      · rcases ih h with h' | h'
        · exact Or.inl h'
        · exact Or.inr (List.mem_cons_of_mem _ h')

/-- The field loop over a concatenation runs the first block, then the
second from the shifted counter and intermediate record. -/
theorem genFields_append_ok (o : Oracle) (xs ys : List FieldDef) :
    ∀ i acc r, genFields o i xs acc = .ok r →
      genFields o i (xs ++ ys) acc = genFields o (i + xs.length) ys r := by
  induction xs with
  | nil =>
    intro i acc r h
    simp [genFields] at h
    subst h
    simp
  | cons x xs ih =>
    intro i acc r h
    rw [List.cons_append]
    rw [genFields] at h ⊢
    cases hv : genFieldValue o i x with
    | error e => rw [hv] at h; exact absurd h (by simp)
    | ok v =>
      rw [hv] at h
      have hlen : i + 1 + xs.length = i + (xs.length + 1) := by omega
      cases v with
      | none =>
        simp only at h ⊢
        rw [ih _ _ _ h, hlen]
        rfl
      | some w =>
        simp only at h ⊢
        rw [ih _ _ _ h, hlen]
        rfl

/-- If no field of the loop can raise `KeyError`, the loop succeeds. -/
theorem genFields_isOk (o : Oracle) (fs : List FieldDef)
    (hwf : ∀ f ∈ fs, complexOkB f = true) :
    ∀ i acc, ∃ r, genFields o i fs acc = .ok r := by
  induction fs with
  | nil => intro i acc; exact ⟨acc, rfl⟩
  | cons f fs ih =>
    intro i acc
    obtain ⟨v, hv⟩ := genFieldValue_isOk o i f (hwf f (List.mem_cons_self _ _))
    have hwf' : ∀ g ∈ fs, complexOkB g = true := fun g hg => hwf g (List.mem_cons_of_mem _ hg)
    rw [genFields, hv]
    cases v with
    | none => exact ih hwf' (i + 1) acc
    | some w => exact ih hwf' (i + 1) (insertVal acc f.name w)

/-- Fields whose names all differ from `k` never touch `k`'s entry. -/
theorem genFields_lookup_preserved (o : Oracle) (fs : List FieldDef) (k : String)
    (hk : ∀ f ∈ fs, f.name ≠ k) :
    ∀ i acc r, genFields o i fs acc = .ok r → lookupVal r k = lookupVal acc k := by
  induction fs with
  | nil =>
    intro i acc r h
    simp [genFields] at h
    subst h
    rfl
  | cons f fs ih =>
    intro i acc r h
    have hk' : ∀ g ∈ fs, g.name ≠ k := fun g hg => hk g (List.mem_cons_of_mem _ hg)
    rw [genFields] at h
    cases hv : genFieldValue o i f with
    | error e => rw [hv] at h; exact absurd h (by simp)
    | ok v =>
      rw [hv] at h
      cases v with
      | none => exact ih hk' _ _ _ h
      | some w =>
        rw [ih hk' _ _ _ h]
        exact insertVal_lookup_ne acc k f.name w (hk f (List.mem_cons_self _ _))

/-- Every entry of the loop's result is named after a visited field or was
already in the accumulator. -/
theorem genFields_mem (o : Oracle) (fs : List FieldDef) :
    ∀ i acc r, genFields o i fs acc = .ok r →
      ∀ p ∈ r, (∃ f ∈ fs, f.name = p.1) ∨ p ∈ acc := by
  induction fs with
  | nil =>
    intro i acc r h p hp
    simp [genFields] at h
    subst h
    exact Or.inr hp
  | cons f fs ih =>
    intro i acc r h p hp
    rw [genFields] at h
    cases hv : genFieldValue o i f with
    | error e => rw [hv] at h; exact absurd h (by simp)
    | ok v =>
      rw [hv] at h
      cases v with
      | none =>
        rcases ih _ _ _ h p hp with ⟨g, hg, hgn⟩ | hacc
        · exact Or.inl ⟨g, List.mem_cons_of_mem _ hg, hgn⟩
        · exact Or.inr hacc
      | some w =>
        rcases ih _ _ _ h p hp with ⟨g, hg, hgn⟩ | hacc
        · exact Or.inl ⟨g, List.mem_cons_of_mem _ hg, hgn⟩
        · rcases mem_insertVal acc f.name w p hacc with hn | hmem
          · exact Or.inl ⟨f, List.mem_cons_self _ _, hn.symm⟩
          · exact Or.inr hmem

/-- With a present `fields` key and no `KeyError`-prone field, the record
loop succeeds and yields one record per iteration. -/
theorem genLoop_isOk (o : Oracle) (schema : Schema) (fs : List FieldDef)
    (hf : schema.fields = some fs)
    (hwf : ∀ f ∈ fs, complexOkB f = true) :
    ∀ n i, ∃ recs, genLoop o schema i n = .ok recs ∧ recs.length = n := by
  intro n
  induction n with
  | zero => intro i; exact ⟨[], rfl, rfl⟩
  | succ n ih =>
    intro i
    obtain ⟨r, hr⟩ := genFields_isOk o fs hwf i []
    obtain ⟨recs, hrecs, hlen⟩ := ih (i + fs.length)
    refine ⟨r :: recs, ?_, by simp [hlen]⟩
    simp only [genLoop, hf, hr, hrecs]

/-- Every key of every generated record is the name of a schema field. -/
theorem genLoop_mem (o : Oracle) (schema : Schema) (fs : List FieldDef)
    (hf : schema.fields = some fs) :
    ∀ n i recs, genLoop o schema i n = .ok recs →
      ∀ r ∈ recs, ∀ p ∈ r, ∃ f ∈ fs, f.name = p.1 := by
  intro n
  induction n with
  | zero =>
    intro i recs h r hr
    simp [genLoop] at h
    subst h
    exact absurd hr (List.not_mem_nil r)
  | succ n ih =>
    intro i recs h r hr p hp
    simp only [genLoop, hf] at h
    cases hg : genFields o i fs [] with
    | error e => rw [hg] at h; exact absurd h (by simp)
    | ok record0 =>
      rw [hg] at h
      cases hrest : genLoop o schema (i + fs.length) n with
      | error e => rw [hrest] at h; exact absurd h (by simp)
      | ok rest =>
        rw [hrest] at h
        simp at h
        subst h
        rcases List.mem_cons.mp hr with hr0 | hrmem
        · subst hr0
          rcases genFields_mem o fs i [] _ hg p hp with hname | habs
          · exact hname
          · exact absurd habs (List.not_mem_nil p)
        · exact ih _ _ hrest r hrmem p hp

/-- The concrete oracle satisfies the randomness range guarantees. -/
theorem defaultOracle_ok : OracleOk defaultOracle := by
  refine ⟨fun _ a _ h => ⟨le_refl a, h⟩, fun _ a b => ⟨le_refl _, min_le_max⟩, fun i j => ?_⟩
  show ('a').isAlpha = true
  decide

/-- Evaluating `pyPow10` on a nonnegative exponent gives an integer power. -/
theorem pyPow10_natCast (k : ℕ) : pyPow10 ((k : ℤ)) = (((10 : ℤ) ^ k : ℤ) : ℚ) := by
  unfold pyPow10
  rw [if_pos (Int.natCast_nonneg k)]
  have h : ((k : ℤ)).toNat = k := by omega
  rw [h]
  push_cast
  rfl

/-- C1: for every valid schema (present `fields` list, none of whose
members can raise `KeyError`) and every record count `n ≥ 0`,
`generate_dummy_data` succeeds and the output file holds exactly `n` JSON
lines, one line per record; `n = 0` produces an empty file. -/
theorem generate_line_count (o : Oracle) (schema : Schema) (fs : List FieldDef) (n : ℤ)
    (hf : schema.fields = some fs)
    (hwf : ∀ f ∈ fs, complexOkB f = true)
    (hn : 0 ≤ n) :
    ∃ recs, generate_dummy_data o schema n = .ok recs ∧ (recs.length : ℤ) = n := by
  obtain ⟨recs, hrecs, hlen⟩ := genLoop_isOk o schema fs hf hwf n.toNat 0
  exact ⟨recs, hrecs, by rw [hlen]; exact Int.toNat_of_nonneg hn⟩

/-- C1 witness: a one-int-field schema with `n = 2` yields two records. -/
theorem generate_line_count_witness :
    ∃ recs, generate_dummy_data defaultOracle ⟨some [⟨"id", FieldType.prim "int", none⟩]⟩ 2 = .ok recs ∧
      (recs.length : ℤ) = 2 :=
  generate_line_count defaultOracle ⟨some [⟨"id", FieldType.prim "int", none⟩]⟩
    [⟨"id", FieldType.prim "int", none⟩] 2 rfl (by decide) (by decide)

/-- C2: an `"int"`-typed field always generates `randint(0, 999999)`, an
integer in the closed range `[0, 999999]`. -/
theorem int_field_range (o : Oracle) (i : ℕ) (field : FieldDef)
    (ho : OracleOk o) (ht : field.type = .prim "int") :
    genFieldValue o i field = .ok (some (.int (o.randint i 0 999999))) ∧
      0 ≤ o.randint i 0 999999 ∧ o.randint i 0 999999 ≤ 999999 :=
  ⟨genFieldValue_int o i field ht, ho.randint_mem i 0 999999 (by norm_num)⟩

/-- C2 witness: evaluated on the concrete oracle at a concrete field. -/
theorem int_field_range_witness :
    genFieldValue defaultOracle 0 ⟨"id", FieldType.prim "int", none⟩ =
      .ok (some (.int (defaultOracle.randint 0 0 999999))) ∧
      0 ≤ defaultOracle.randint 0 0 999999 ∧ defaultOracle.randint 0 0 999999 ≤ 999999 :=
  int_field_range defaultOracle 0 ⟨"id", FieldType.prim "int", none⟩ defaultOracle_ok rfl

/-- C6 counterexample: with `num_records = 0` the inner loop body never
runs, so a schema lacking `fields` raises no error at all — the run
succeeds with an empty output file, refuting "for every requested record
count N". -/
theorem missing_fields_claim_cex :
    generate_dummy_data defaultOracle ⟨none⟩ 0 = .ok [] := rfl

/-- C6 amended: a schema lacking the `fields` key makes
`generate_dummy_data` raise `KeyError` at the first field-iteration for
every record count `n ≥ 1` (for `n ≤ 0` the loop body never runs and the
call succeeds with an empty file). -/
theorem missing_fields_fatal (o : Oracle) (schema : Schema) (n : ℤ)
    (hf : schema.fields = none) (hn : 1 ≤ n) :
    generate_dummy_data o schema n = .error .keyErrorFields := by
  unfold generate_dummy_data
  obtain ⟨m, hm⟩ : ∃ m, n.toNat = m + 1 := ⟨n.toNat - 1, by omega⟩
  rw [hm]
  simp [genLoop, hf]

/-- C6 witness: the same fields-less schema fails at `n = 1`. -/
theorem missing_fields_fatal_witness :
    generate_dummy_data defaultOracle ⟨none⟩ 1 = .error .keyErrorFields :=
  missing_fields_fatal defaultOracle ⟨none⟩ 1 rfl (by decide)

/-- C7: a `"double"` field whose lowercased doc starts with `number(` but
fails the `number(p,s)` pattern produces no value: the field is silently
omitted and no error is raised. -/
theorem malformed_number_doc_omitted (o : Oracle) (i : ℕ) (field : FieldDef) (d : String)
    (ht : field.type = .prim "double")
    (hd : field.doc = some d)
    (hstart : startsNumber (pyLower d) = true)
    (hparse : parse_number_format (pyLower d) = none) :
    genFieldValue o i field = .ok none := by
  apply genFieldValue_double_malformed o i field ht
  · rw [hd]; exact hstart
  · rw [hd]; exact hparse

/-- C7 witness: doc `"number(x)"` has the prefix but fails the pattern. -/
theorem malformed_number_doc_omitted_witness :
    genFieldValue defaultOracle 0 ⟨"x", FieldType.prim "double", some "number(x)"⟩ = .ok none :=
  malformed_number_doc_omitted defaultOracle 0 ⟨"x", FieldType.prim "double", some "number(x)"⟩
    "number(x)" rfl rfl (by decide) (by decide)

/-- C8: every key of every generated record is the name of some declared
schema field (keys are only ever inserted under a declared field's name). -/
theorem record_keys_subset (o : Oracle) (schema : Schema) (fs : List FieldDef) (n : ℤ)
    (recs : List (List (String × Value)))
    (hf : schema.fields = some fs)
    (hgen : generate_dummy_data o schema n = .ok recs) :
    ∀ r ∈ recs, ∀ p ∈ r, ∃ field ∈ fs, field.name = p.1 :=
  genLoop_mem o schema fs hf n.toNat 0 recs hgen

/-- C8 witness: the single key of the single generated record is the
declared field name `"id"`. -/
theorem record_keys_subset_witness :
    ∃ field ∈ [(⟨"id", FieldType.prim "int", none⟩ : FieldDef)],
      field.name = (("id", Value.int 0) : String × Value).1 :=
  record_keys_subset defaultOracle ⟨some [⟨"id", FieldType.prim "int", none⟩]⟩
    [⟨"id", FieldType.prim "int", none⟩] 1 [[("id", Value.int 0)]] rfl rfl
    [("id", Value.int 0)] (by decide) ("id", Value.int 0) (by decide)

/-- C10: a strictly negative `num_records` raises no error: `range`
iterates zero times, so the file is created, truncated and left empty and
the run reports success, exactly as for `n = 0`. -/
theorem negative_count_empty (o : Oracle) (schema : Schema) (n : ℤ) (hn : n < 0) :
    generate_dummy_data o schema n = .ok [] ∧
      generate_dummy_data o schema n = generate_dummy_data o schema 0 := by
  constructor
  · unfold generate_dummy_data
    rw [Int.toNat_of_nonpos (le_of_lt hn)]
    rfl
  · unfold generate_dummy_data
    rw [Int.toNat_of_nonpos (le_of_lt hn)]
    rfl

/-- C10 witness: `n = -1` on an arbitrary schema. -/
theorem negative_count_empty_witness :
    generate_dummy_data defaultOracle ⟨some [⟨"id", FieldType.prim "int", none⟩]⟩ (-1) = .ok [] ∧
      generate_dummy_data defaultOracle ⟨some [⟨"id", FieldType.prim "int", none⟩]⟩ (-1) =
        generate_dummy_data defaultOracle ⟨some [⟨"id", FieldType.prim "int", none⟩]⟩ 0 :=
  negative_count_empty defaultOracle ⟨some [⟨"id", FieldType.prim "int", none⟩]⟩ (-1) (by decide)

/-- Replacing placeholders preserves the template's length. -/
theorem lexifyAux_length (letter : ℕ → Char) :
    ∀ j l, (lexifyAux letter j l).length = l.length := by
  intro j l
  induction l generalizing j with
  | nil => rfl
  | cons c cs ih => simp [lexifyAux, ih]

/-- Every character produced from an all-placeholder template is a drawn
letter. -/
theorem lexifyAux_replicate_mem (letter : ℕ → Char) :
    ∀ n j c, c ∈ lexifyAux letter j (List.replicate n '?') → ∃ j', c = letter j' := by
  intro n
  induction n with
  | zero =>
    intro j c hc
    exact absurd hc (by simp [lexifyAux])
  | succ n ih =>
    intro j c hc
    rw [List.replicate_succ, lexifyAux] at hc
    rcases List.mem_cons.mp hc with h0 | hmem
    · rw [if_pos rfl] at h0
      exact ⟨j, h0⟩
    · exact ih (j + 1) c hmem

/-- C4: a field whose `type` is the nested object
`{type: "string", maxLength: n}` generates a string of exactly `n`
characters, each an ASCII letter. -/
theorem nested_string_length (o : Oracle) (i : ℕ) (field : FieldDef) (n : ℕ)
    (ho : OracleOk o) (ht : field.type = .obj (some "string") (some n)) :
    ∃ s : String, genFieldValue o i field = .ok (some (.str s)) ∧
      s.length = n ∧ ∀ c ∈ s.data, c.isAlpha = true := by
  refine ⟨lexify (o.letterAt i) (List.replicate n '?'),
    genFieldValue_nested_string o i field n ht, ?_, ?_⟩
  · show (lexifyAux (o.letterAt i) 0 (List.replicate n '?')).length = n
    rw [lexifyAux_length]
    exact List.length_replicate n '?'
  · intro c hc
    obtain ⟨j', hj⟩ := lexifyAux_replicate_mem (o.letterAt i) n 0 c hc
    rw [hj]
    exact ho.letter_alpha i j'

/-- C4 witness: `maxLength = 3` yields a 3-letter string. -/
theorem nested_string_length_witness :
    ∃ s : String, genFieldValue defaultOracle 0 ⟨"code", FieldType.obj (some "string") (some 3), none⟩ =
      .ok (some (.str s)) ∧ s.length = 3 ∧ ∀ c ∈ s.data, c.isAlpha = true :=
  nested_string_length defaultOracle 0 ⟨"code", FieldType.obj (some "string") (some 3), none⟩ 3
    defaultOracle_ok rfl

/-- C9: duplicate field names raise no error, and the record maps the
shared name to the value produced for the last field definition bearing it
(last-write-wins). -/
theorem duplicate_name_last_write (o : Oracle) (i : ℕ) (fs₁ fs₂ : List FieldDef)
    (g : FieldDef) (v : Value)
    (_hdup : ∃ f ∈ fs₁, f.name = g.name)
    (hwf₁ : ∀ f ∈ fs₁, complexOkB f = true)
    (hwf₂ : ∀ f ∈ fs₂, complexOkB f = true)
    (hpost : ∀ f ∈ fs₂, f.name ≠ g.name)
    (hv : genFieldValue o (i + fs₁.length) g = .ok (some v)) :
    ∃ r, genFields o i (fs₁ ++ g :: fs₂) [] = .ok r ∧ lookupVal r g.name = some v := by
  obtain ⟨r₁, hr₁⟩ := genFields_isOk o fs₁ hwf₁ i []
  obtain ⟨r₂, hr₂⟩ := genFields_isOk o fs₂ hwf₂ (i + fs₁.length + 1) (insertVal r₁ g.name v)
  refine ⟨r₂, ?_, ?_⟩
  · rw [genFields_append_ok o fs₁ (g :: fs₂) i [] r₁ hr₁, genFields, hv]
    exact hr₂
  · rw [genFields_lookup_preserved o fs₂ g.name hpost _ _ _ hr₂]
    exact insertVal_lookup_self r₁ g.name v

/-- C9 witness: two fields named `"a"` — an int field then an email string
field; the record holds the email value written by the second. -/
theorem duplicate_name_last_write_witness :
    ∃ r, genFields defaultOracle 0
        ([⟨"a", FieldType.prim "int", none⟩] ++ ⟨"a", FieldType.prim "string", some "email"⟩ :: []) [] = .ok r ∧
      lookupVal r (FieldDef.name ⟨"a", FieldType.prim "string", some "email"⟩) = some (.str "a@b.c") :=
  duplicate_name_last_write defaultOracle 0 [⟨"a", FieldType.prim "int", none⟩] []
    ⟨"a", FieldType.prim "string", some "email"⟩ (.str "a@b.c")
    ⟨⟨"a", FieldType.prim "int", none⟩, by decide, rfl⟩
    (by decide) (by decide) (by decide) rfl

/-- C5 counterexample: a nested-object `type` missing the inner `type` key
is not silently omitted — `field['type']['type']` raises `KeyError` and
the whole run fails, refuting "no error is raised". -/
theorem complex_shape_claim_cex :
    generate_dummy_data defaultOracle ⟨some [⟨"x", FieldType.obj none none, none⟩]⟩ 1 =
      .error .keyErrorType := rfl

/-- C5 amended: a nested-object `type` that has an inner `type` key but
does not match `{type: "string", maxLength: n}` produces no value: the
field is silently omitted from the record, no error is raised, and
generation of the remaining fields succeeds (an object missing the inner
`type` key instead raises `KeyError`). -/
theorem complex_shape_silent_omission (o : Oracle) (i j : ℕ) (field : FieldDef)
    (t : String) (ml : Option ℕ) (fs₁ fs₂ : List FieldDef)
    (ht : field.type = .obj (some t) ml)
    (hshape : t ≠ "string" ∨ ml = none)
    (hwf₁ : ∀ g ∈ fs₁, complexOkB g = true)
    (hwf₂ : ∀ g ∈ fs₂, complexOkB g = true)
    (hname : ∀ g ∈ fs₁ ++ fs₂, g.name ≠ field.name) :
    genFieldValue o j field = .ok none ∧
      ∃ r, genFields o i (fs₁ ++ field :: fs₂) [] = .ok r ∧
        lookupVal r field.name = none := by
  have hskip : ∀ k, genFieldValue o k field = .ok none := fun k =>
    genFieldValue_obj_skip o k field t ml ht hshape
  refine ⟨hskip j, ?_⟩
  obtain ⟨r₁, hr₁⟩ := genFields_isOk o fs₁ hwf₁ i []
  obtain ⟨r₂, hr₂⟩ := genFields_isOk o fs₂ hwf₂ (i + fs₁.length + 1) r₁
  refine ⟨r₂, ?_, ?_⟩
  · rw [genFields_append_ok o fs₁ (field :: fs₂) i [] r₁ hr₁, genFields, hskip _]
    exact hr₂
  · have h2 := genFields_lookup_preserved o fs₂ field.name
      (fun g hg => hname g (List.mem_append_right _ hg)) _ _ _ hr₂
    have h1 := genFields_lookup_preserved o fs₁ field.name
      (fun g hg => hname g (List.mem_append_left _ hg)) _ _ _ hr₁
    rw [h2, h1]
    rfl

/-- C5 witness: a nested `{type: "int"}` object (inner key present, shape
unmatched) is omitted while the surrounding int field still generates. -/
theorem complex_shape_silent_omission_witness :
    genFieldValue defaultOracle 1 ⟨"x", FieldType.obj (some "int") none, none⟩ = .ok none ∧
      ∃ r, genFields defaultOracle 0
          ([⟨"id", FieldType.prim "int", none⟩] ++ ⟨"x", FieldType.obj (some "int") none, none⟩ :: []) [] = .ok r ∧
        lookupVal r (FieldDef.name ⟨"x", FieldType.obj (some "int") none, none⟩) = none :=
  complex_shape_silent_omission defaultOracle 0 1 ⟨"x", FieldType.obj (some "int") none, none⟩
    "int" none [⟨"id", FieldType.prim "int", none⟩] [] rfl (Or.inl (by decide))
    (by decide) (by decide) (by decide)

/-- C3 counterexample: with doc `"NUMBER(1,2)"` (scale exceeding
precision) Python computes `max_value = 10**(-1) - 1 = -0.9`, so
`uniform(0, max_value)` can return `-0.9` and the rounded result is
`-9/10`, which is not in the claimed range `[0, 10**(1-2) - 1]` (it is
negative), refuting the claim for non-negative precision and scale in
general. -/
theorem double_number_claim_cex :
    genFieldValue defaultOracle 0 ⟨"x", FieldType.prim "double", some "NUMBER(1,2)"⟩ =
      .ok (some (.rat (-(9 : ℚ) / 10))) ∧ ¬ (0 : ℚ) ≤ -(9 : ℚ) / 10 := by
  constructor
  · have hp : parse_number_format (pyLower ((some "NUMBER(1,2)").getD "")) = some (1, 2) := by
      decide
    have h1 := genFieldValue_double_parsed defaultOracle 0
      ⟨"x", FieldType.prim "double", some "NUMBER(1,2)"⟩ 1 2 rfl hp
    rw [h1]
    have hc : ((1 : ℕ) : ℤ) - ((2 : ℕ) : ℤ) = -1 := by norm_num
    rw [hc]
    have hpow : pyPow10 (-1) = 1 / 10 := by
      unfold pyPow10
      rw [if_neg (by decide)]
      have ht1 : ((-(-1) : ℤ)).toNat = 1 := by decide
      rw [ht1]
      norm_num
    rw [hpow]
    have hmin : defaultOracle.uniform 0 0 ((1 : ℚ) / 10 - 1) = -(9 : ℚ) / 10 := by
      show min (0 : ℚ) ((1 : ℚ) / 10 - 1) = -(9 : ℚ) / 10
      rw [min_eq_right (by norm_num)]
      norm_num
    rw [hmin]
    have hr2 : pyRound (-(9 : ℚ) / 10) 2 = -(9 : ℚ) / 10 := by
      unfold pyRound
      have harg : (-(9 : ℚ) / 10) * 10 ^ 2 = ((-90 : ℤ) : ℚ) := by norm_num
      rw [harg, pyRoundInt_intCast]
      norm_num
    rw [hr2]
  · norm_num

/-- C3 amended: for a `"double"` field whose lowercased doc parses as
`number(precision,scale)` with `scale ≤ precision`, the generated value is
a rational in `[0, 10**(precision-scale) - 1]` with at most `scale`
fractional decimal digits (for `scale > precision` the Python bound
`10**(precision-scale) - 1` is negative and the value can be negative, as
the counterexample shows). -/
theorem double_number_range (o : Oracle) (i : ℕ) (field : FieldDef)
    (precision scale : ℕ)
    (ho : OracleOk o)
    (ht : field.type = .prim "double")
    (hdoc : parse_number_format (pyLower (field.doc.getD "")) = some (precision, scale))
    (hps : scale ≤ precision) :
    ∃ v : ℚ, genFieldValue o i field = .ok (some (.rat v)) ∧
      0 ≤ v ∧ v ≤ pyPow10 ((precision : ℤ) - (scale : ℤ)) - 1 ∧
      ∃ m : ℤ, v = (m : ℚ) / 10 ^ scale := by
  have he : (precision : ℤ) - (scale : ℤ) = ((precision - scale : ℕ) : ℤ) := by omega
  have hM : pyPow10 ((precision : ℤ) - (scale : ℤ)) - 1 =
      (((10 : ℤ) ^ (precision - scale) - 1 : ℤ) : ℚ) := by
    rw [he, pyPow10_natCast]
    push_cast
    ring
  have hK0 : (0 : ℤ) ≤ (10 : ℤ) ^ (precision - scale) - 1 := by
    have h10 : (0 : ℤ) < 10 ^ (precision - scale) := pow_pos (by norm_num) _
    omega
  have hM0 : (0 : ℚ) ≤ pyPow10 ((precision : ℤ) - (scale : ℤ)) - 1 := by
    rw [hM]
    exact_mod_cast hK0
  obtain ⟨hu1, hu2⟩ := ho.uniform_mem i 0 (pyPow10 ((precision : ℤ) - (scale : ℤ)) - 1)
  have hu0 : (0 : ℚ) ≤ o.uniform i 0 (pyPow10 ((precision : ℤ) - (scale : ℤ)) - 1) := by
    rw [min_eq_left hM0] at hu1
    exact hu1
  have huM : o.uniform i 0 (pyPow10 ((precision : ℤ) - (scale : ℤ)) - 1) ≤
      (((10 : ℤ) ^ (precision - scale) - 1 : ℤ) : ℚ) := by
    rw [max_eq_right hM0] at hu2
    rw [← hM]
    exact hu2
  refine ⟨_, genFieldValue_double_parsed o i field precision scale ht hdoc,
    pyRound_nonneg scale hu0, ?_, ⟨pyRoundInt _, rfl⟩⟩
  calc pyRound (o.uniform i 0 (pyPow10 ((precision : ℤ) - (scale : ℤ)) - 1)) scale
      ≤ (((10 : ℤ) ^ (precision - scale) - 1 : ℤ) : ℚ) := pyRound_le_intCast scale huM
  _ = pyPow10 ((precision : ℤ) - (scale : ℤ)) - 1 := hM.symm

/-- C3 amended witness: doc `"number(5,2)"` on the concrete oracle. -/
theorem double_number_range_witness :
    ∃ v : ℚ, genFieldValue defaultOracle 0 ⟨"amt", FieldType.prim "double", some "number(5,2)"⟩ =
      .ok (some (.rat v)) ∧
      0 ≤ v ∧ v ≤ pyPow10 (((5 : ℕ) : ℤ) - ((2 : ℕ) : ℤ)) - 1 ∧
      ∃ m : ℤ, v = (m : ℚ) / 10 ^ (2 : ℕ) :=
  double_number_range defaultOracle 0 ⟨"amt", FieldType.prim "double", some "number(5,2)"⟩ 5 2
    defaultOracle_ok rfl (by decide) (by decide)
